import Mathlib

/-!
# Verification of granola-ts-client core components

A shallow embedding, in Lean 4, of the core logic of the `granola-ts-client`
TypeScript repository: the text-similarity function, the transcript segment
deduplication engine and speaker-assignment refiner (`src/transcript-client.ts`),
the markdown export content builder, the HTTP transport retry loop and header
construction (`src/http.ts`), the cursor pagination helper (`src/pagination.ts`),
and the organization detector (`src/organization-detector.ts`).

JavaScript numbers are modelled as `ℚ` (exact arithmetic), JS strings as `String`,
possibly-`undefined` values as `Option`, and code that can raise a runtime
`TypeError` as `Except Unit`.  Effectful fetch loops are modelled as pure state
machines over a script of attempt outcomes.
-/

namespace Granola

/-- JS truthiness of a `string | undefined | null` value: `undefined`, `null`
and the empty string are falsy. -/
def jsTruthyStr : Option String → Bool
  | none => false
  | some s => s ≠ ""

/-- `String.prototype.toLowerCase()` (restricted to the ASCII mapping of
`Char.toLower`, which agrees with JS on the data appearing in this client). -/
def jsLower (s : String) : String := ⟨s.data.map Char.toLower⟩

/-- `hay.includes(needle)` — substring containment, true for the empty needle. -/
def strIncludes (hay needle : String) : Bool :=
  hay.data.tails.any (fun t => needle.data.isPrefixOf t)

/-- `text?.length || 0` on an optional string. -/
def optTextLen (t : Option String) : ℕ := (t.map String.length).getD 0

/-- `Math.min` on (non-NaN) JS numbers. -/
def jsMin (a b : ℚ) : ℚ := if a ≤ b then a else b

/-!
## `TranscriptClient._longestCommonSubsequence` (src/transcript-client.ts 80–99)

The TS code fills an `(|s1|+1) × (|s2|+1)` DP matrix row by row:
`matrix[i][j] = matrix[i-1][j-1] + 1` on equal chars, else
`max (matrix[i-1][j]) (matrix[i][j-1])`; the result is `matrix[|s1|][|s2|]`.
We compute the same matrix one row at a time.
-/

/-- One cell sweep of the DP row update: given the remainder of `s2`, the
remainder of the previous row starting at column `j-1`, and the value of the
current row at column `j-1`, produce the current row from column `j` on. -/
def lcsRowGo (c : Char) : List Char → List ℕ → ℕ → List ℕ
  | [], _, _ => []
  | _ :: _, [], _ => []
  | b :: bs, pd :: prest, left =>
    let cell := if c = b then pd + 1 else max (prest.headD 0) left
    cell :: lcsRowGo c bs prest cell

/-- The next DP row (column 0 is always 0). -/
def lcsNextRow (c : Char) (s2 : List Char) (prev : List ℕ) : List ℕ :=
  0 :: lcsRowGo c s2 prev 0

/-- `_longestCommonSubsequence(s1, s2)`: length of the longest common
subsequence, as the final cell of the DP matrix. -/
def lcsLen (s1 s2 : List Char) : ℕ :=
  (s1.foldl (fun row c => lcsNextRow c s2 row) (List.replicate (s2.length + 1) 0)).getLastD 0

/-!
## `TranscriptClient._calculateTextSimilarity` (src/transcript-client.ts 41–69)
-/

/-- `_calculateTextSimilarity(text1, text2)`.  Note that in the containment
branch the TS code returns `minLen / maxLen + 0.2` with **no** cap applied
(the cap is only mentioned in a comment). -/
def calculateTextSimilarity (text1 text2 : String) : ℚ :=
  let s1 := jsLower text1
  let s2 := jsLower text2
  if s1.length = 0 ∧ s2.length = 0 then 1
  else if s1.length = 0 ∨ s2.length = 0 then 0
  else if s1 = s2 then 1
  else if strIncludes s1 s2 ∨ strIncludes s2 s1 then
    ((min s1.length s2.length : ℕ) : ℚ) / ((max s1.length s2.length : ℕ) : ℚ) + 1/5
  else
    jsMin 1 ((lcsLen s1.data s2.data : ℚ) / ((max s1.length s2.length : ℕ) : ℚ))

/-!
## Transcript segments (src/transcript-types.ts)

`start_time`/`end_time` are JS `Date`s; we carry their `getTime()` value in
milliseconds as an exact rational.
-/

/-- A `TranscriptSegmentWithSpeaker`, restricted to the fields the
deduplication, refinement and export code reads. -/
structure Seg where
  text : Option String
  source : Option String
  speaker : String
  start_time : ℚ
  end_time : ℚ
  confidence : ℚ
deriving DecidableEq, Repr, Inhabited

/-- Similarity of two segments as invoked by the pipeline:
`_calculateTextSimilarity(a.text || '', b.text || '')`. -/
def simSeg (a b : Seg) : ℚ :=
  calculateTextSimilarity (a.text.getD "") (b.text.getD "")

/-!
## Sorting

Both `_deduplicateSegments` and `_improveSpeakerAssignment` begin with
`[...segments].sort((a, b) => a.start_time.getTime() - b.start_time.getTime())`.
JS `Array.prototype.sort` is stable; we model it with a stable insertion sort.
-/

/-- Stable insert: place `x` before the first element whose start time is
not smaller (so an element equal in key to `x` that occurred later in the
original array stays after `x`). -/
def insertByStart (x : Seg) : List Seg → List Seg
  | [] => [x]
  | y :: l => if x.start_time ≤ y.start_time then x :: y :: l else y :: insertByStart x l

/-- Stable sort by `start_time`, modelling the JS comparator
`(a, b) => a.start_time - b.start_time`. -/
def sortByStart : List Seg → List Seg
  | [] => []
  | x :: xs => insertByStart x (sortByStart xs)

/-- The sortedness invariant both passes rely on. -/
def SortedByStart (l : List Seg) : Prop :=
  l.Pairwise (fun a b => a.start_time ≤ b.start_time)

theorem mem_insertByStart {b x : Seg} {l : List Seg} :
    b ∈ insertByStart x l ↔ b = x ∨ b ∈ l := by
  induction l with
  | nil => simp [insertByStart]
  | cons y ys ih =>
    by_cases hxy : x.start_time ≤ y.start_time
    · rw [insertByStart, if_pos hxy]
      simp [List.mem_cons]
    · rw [insertByStart, if_neg hxy]
      simp only [List.mem_cons, ih]
      tauto

theorem insertByStart_sorted (x : Seg) (l : List Seg) (h : SortedByStart l) :
    SortedByStart (insertByStart x l) := by
  induction l with
  | nil => simp [insertByStart, SortedByStart]
  | cons y ys ih =>
    rw [SortedByStart, List.pairwise_cons] at h
    by_cases hxy : x.start_time ≤ y.start_time
    · rw [insertByStart, if_pos hxy]
      refine List.Pairwise.cons ?_ (List.Pairwise.cons h.1 h.2)
      intro b hb
      rcases List.mem_cons.mp hb with rfl | hb
      · exact hxy
      · exact le_trans hxy (h.1 b hb)
    · rw [insertByStart, if_neg hxy]
      have hyx : y.start_time ≤ x.start_time := le_of_not_le hxy
      refine List.Pairwise.cons ?_ (ih h.2)
      intro b hb
      rcases mem_insertByStart.mp hb with rfl | hmem
      · exact hyx
      · exact h.1 b hmem

theorem sortByStart_sorted (l : List Seg) : SortedByStart (sortByStart l) := by
  induction l with
  | nil => exact List.Pairwise.nil
  | cons x xs ih => exact insertByStart_sorted x _ ih

theorem insertByStart_of_le (x : Seg) (l : List Seg)
    (h : ∀ y ∈ l, x.start_time ≤ y.start_time) : insertByStart x l = x :: l := by
  cases l with
  | nil => rfl
  | cons y ys =>
    rw [insertByStart, if_pos (h y (List.mem_cons_self _ _))]

/-- A stable sort leaves an already-sorted list unchanged. -/
theorem sortByStart_eq_self (l : List Seg) (h : SortedByStart l) : sortByStart l = l := by
  induction l with
  | nil => rfl
  | cons x xs ih =>
    rw [SortedByStart, List.pairwise_cons] at h
    rw [sortByStart, ih h.2]
    exact insertByStart_of_le x xs h.1

/-!
## `TranscriptClient._deduplicateSegments` (src/transcript-client.ts 110–175)

The TS code sorts, then marks indices for removal with two nested loops, and
finally filters the marked indices out.  A later outer iteration never
revisits a marked index (both the outer and the inner loop `continue` over
marked indices), and marking the outer index `i` aborts its inner scan
(`break`).  We model "marked" as "already deleted from the remaining list":
`scanDedup` is one inner scan of segment `s` against the not-yet-removed
segments after it, returning whether `s` survives together with the remaining
list after the scan's removals.
-/

/-- `new Date(ms)` clips its argument with `ToIntegerOrInfinity`, truncating
toward zero; `windowEnd` therefore holds the truncated value of
`segment.start_time.getTime() + timeWindowSeconds * 1000`. -/
def jsTrunc (q : ℚ) : ℚ := if 0 ≤ q then (⌊q⌋ : ℚ) else (⌈q⌉ : ℚ)

/-- `windowEnd.getTime()` for a segment: start time plus the window, in ms. -/
def windowEnd (s : Seg) (timeWindowSeconds : ℚ) : ℚ :=
  jsTrunc (s.start_time + timeWindowSeconds * 1000)

/-- The inner loop of `_deduplicateSegments` for one surviving segment
`s` (outer index `i`), over the unremoved segments after it.  Returns
`(keep_s, remaining)`:
* stop at the first segment past the time window (`other.start > windowEnd`);
* on a similar pair (`similarity ≥ threshold`):
  * `s` microphone vs other system → drop the other, keep scanning;
  * `s` system vs other microphone → drop `s` (`break`);
  * otherwise → drop the other if `similarity > 0.95` or `s`'s text is at
    least as long, else drop `s` (`break`). -/
def scanDedup (threshold timeWindow : ℚ) (s : Seg) : List Seg → Bool × List Seg
  | [] => (true, [])
  | o :: t =>
    if windowEnd s timeWindow < o.start_time then (true, o :: t)
    else if threshold ≤ simSeg s o then
      if s.source = some "microphone" ∧ o.source = some "system" then
        scanDedup threshold timeWindow s t
      else if s.source = some "system" ∧ o.source = some "microphone" then
        (false, o :: t)
      else if 19/20 < simSeg s o ∨ optTextLen o.text ≤ optTextLen s.text then
        scanDedup threshold timeWindow s t
      else (false, o :: t)
    else
      let r := scanDedup threshold timeWindow s t
      (r.1, o :: r.2)

/-- The outer loop of `_deduplicateSegments` over the sorted list.  `fuel`
bounds the recursion; `fuel = length` always suffices because each inner scan
only removes elements. -/
def dedupGo (threshold timeWindow : ℚ) : ℕ → List Seg → List Seg
  | 0, _ => []
  | _, [] => []
  | fuel + 1, s :: t =>
    match scanDedup threshold timeWindow s t with
    | (true, t') => s :: dedupGo threshold timeWindow fuel t'
    | (false, t') => dedupGo threshold timeWindow fuel t'

/-- `_deduplicateSegments(segments, similarityThreshold, timeWindowSeconds)`. -/
def deduplicateSegments (segments : List Seg) (threshold timeWindow : ℚ) : List Seg :=
  if segments.isEmpty then []
  else
    let sorted := sortByStart segments
    dedupGo threshold timeWindow sorted.length sorted

/-!
### Deduplication invariants

After one run of `_deduplicateSegments`, any two surviving segments whose
start times are within the window have similarity below the threshold —
otherwise the inner scan would have removed one of them.  A second run
therefore removes nothing.
-/

theorem scanDedup_sublist (threshold timeWindow : ℚ) (s : Seg) :
    ∀ t : List Seg, (scanDedup threshold timeWindow s t).2.Sublist t := by
  intro t
  induction t with
  | nil => simp [scanDedup]
  | cons o t ih =>
    rw [scanDedup]
    split_ifs with h1 h2 h3 h4 h5
    · exact List.Sublist.refl _
    · exact ih.trans (List.sublist_cons_self o t)
    · exact List.Sublist.refl _
    · exact ih.trans (List.sublist_cons_self o t)
    · exact List.Sublist.refl _
    · exact List.Sublist.cons₂ o ih

theorem scanDedup_keep_all (threshold timeWindow : ℚ) (s : Seg) :
    ∀ t : List Seg,
      (∀ o ∈ t, o.start_time ≤ windowEnd s timeWindow → simSeg s o < threshold) →
      scanDedup threshold timeWindow s t = (true, t) := by
  intro t
  induction t with
  | nil => simp [scanDedup]
  | cons o t ih =>
    intro h
    by_cases h1 : windowEnd s timeWindow < o.start_time
    · rw [scanDedup, if_pos h1]
    · have hsim : simSeg s o < threshold :=
        h o (List.mem_cons_self _ _) (le_of_not_lt h1)
      rw [scanDedup, if_neg h1, if_neg (not_le.mpr hsim),
        ih fun b hb => h b (List.mem_cons_of_mem _ hb)]

theorem scanDedup_true_mem (threshold timeWindow : ℚ) (s : Seg) :
    ∀ t t' : List Seg, SortedByStart t →
      scanDedup threshold timeWindow s t = (true, t') →
      ∀ b ∈ t', b.start_time ≤ windowEnd s timeWindow → simSeg s b < threshold := by
  intro t
  induction t with
  | nil =>
    intro t' _ heq
    rw [scanDedup] at heq
    cases heq
    intro b hb
    exact absurd hb (List.not_mem_nil b)
  | cons o t ih =>
    intro t' hsorted heq
    rw [SortedByStart, List.pairwise_cons] at hsorted
    rw [scanDedup] at heq
    split_ifs at heq with h1 h2 h3 h4 h5
    · cases heq
      intro b hb hwin
      rcases List.mem_cons.mp hb with rfl | hb
      · exact absurd hwin (not_le.mpr h1)
      · exact absurd hwin (not_le.mpr (lt_of_lt_of_le h1 (hsorted.1 b hb)))
    · exact ih t' hsorted.2 heq
    · cases heq
    · exact ih t' hsorted.2 heq
    · cases heq
    · rcases hscan : scanDedup threshold timeWindow s t with ⟨k, rest⟩
      rw [hscan] at heq
      cases heq
      intro b hb hwin
      rcases List.mem_cons.mp hb with rfl | hb
      · exact not_le.mp h2
      · exact ih rest hsorted.2 hscan b hb hwin

theorem dedupGo_sublist (threshold timeWindow : ℚ) :
    ∀ fuel : ℕ, ∀ l : List Seg, (dedupGo threshold timeWindow fuel l).Sublist l := by
  intro fuel
  induction fuel with
  | zero => intro l; cases l <;> simp [dedupGo]
  | succ fuel ih =>
    intro l
    cases l with
    | nil => simp [dedupGo]
    | cons s t =>
      rw [dedupGo]
      rcases hscan : scanDedup threshold timeWindow s t with ⟨k, t'⟩
      have hsub : t'.Sublist t := by
        have h := scanDedup_sublist threshold timeWindow s t
        rw [hscan] at h
        exact h
      cases k
      · exact (ih t').trans (hsub.trans (List.sublist_cons_self s t))
      · exact List.Sublist.cons₂ s ((ih t').trans hsub)

theorem dedupGo_pairwise (threshold timeWindow : ℚ) :
    ∀ fuel : ℕ, ∀ l : List Seg, l.length ≤ fuel → SortedByStart l →
      (dedupGo threshold timeWindow fuel l).Pairwise
        (fun a b => b.start_time ≤ windowEnd a timeWindow → simSeg a b < threshold) := by
  intro fuel
  induction fuel with
  | zero =>
    intro l hlen _
    rw [List.length_eq_zero.mp (Nat.le_zero.mp hlen)]
    simp [dedupGo]
  | succ fuel ih =>
    intro l hlen hsorted
    cases l with
    | nil => simp [dedupGo]
    | cons s t =>
      rw [SortedByStart, List.pairwise_cons] at hsorted
      rw [dedupGo]
      rcases hscan : scanDedup threshold timeWindow s t with ⟨k, t'⟩
      have hsub : t'.Sublist t := by
        have h := scanDedup_sublist threshold timeWindow s t
        rw [hscan] at h
        exact h
      have hlen' : t'.length ≤ fuel :=
        le_trans hsub.length_le (Nat.le_of_succ_le_succ hlen)
      have hsorted' : SortedByStart t' := hsorted.2.sublist hsub
      cases k
      · exact ih t' hlen' hsorted'
      · refine List.Pairwise.cons ?_ (ih t' hlen' hsorted')
        intro b hb
        exact scanDedup_true_mem threshold timeWindow s t t' hsorted.2 hscan b
          ((dedupGo_sublist threshold timeWindow fuel t').subset hb)

theorem dedupGo_eq_self (threshold timeWindow : ℚ) :
    ∀ fuel : ℕ, ∀ l : List Seg, l.length ≤ fuel →
      l.Pairwise (fun a b => b.start_time ≤ windowEnd a timeWindow → simSeg a b < threshold) →
      dedupGo threshold timeWindow fuel l = l := by
  intro fuel
  induction fuel with
  | zero =>
    intro l hlen _
    rw [List.length_eq_zero.mp (Nat.le_zero.mp hlen)]
    rfl
  | succ fuel ih =>
    intro l hlen hpw
    cases l with
    | nil => rfl
    | cons s t =>
      rw [List.pairwise_cons] at hpw
      rw [dedupGo, scanDedup_keep_all threshold timeWindow s t hpw.1]
      show s :: dedupGo threshold timeWindow fuel t = s :: t
      rw [ih t (Nat.le_of_succ_le_succ hlen) hpw.2]

/-- C4: for every segment sequence and every choice of `similarityThreshold`
and `timeWindowSeconds`, `_deduplicateSegments` is idempotent: a second run on
its own output removes nothing further. -/
theorem dedup_idempotent (S : List Seg) (threshold timeWindow : ℚ) :
    deduplicateSegments (deduplicateSegments S threshold timeWindow) threshold timeWindow
      = deduplicateSegments S threshold timeWindow := by
  by_cases hS : S.isEmpty
  · simp [deduplicateSegments, hS]
  · simp only [deduplicateSegments, if_neg hS]
    set L := dedupGo threshold timeWindow (sortByStart S).length (sortByStart S) with hL
    have hsub : L.Sublist (sortByStart S) :=
      dedupGo_sublist threshold timeWindow (sortByStart S).length (sortByStart S)
    have hsorted : SortedByStart L := (sortByStart_sorted S).sublist hsub
    have hpw : L.Pairwise
        (fun a b => b.start_time ≤ windowEnd a timeWindow → simSeg a b < threshold) :=
      dedupGo_pairwise threshold timeWindow (sortByStart S).length (sortByStart S)
        le_rfl (sortByStart_sorted S)
    by_cases hLe : L.isEmpty
    · rw [if_pos hLe]
      exact (List.isEmpty_iff.mp hLe).symm
    · rw [if_neg hLe, sortByStart_eq_self L hsorted]
      exact dedupGo_eq_self threshold timeWindow L.length L le_rfl hpw

/-- C3 (code bug): on the containment branch the similarity is *not* capped at
1.0 — for the pair `"aaaaaaaaa"`/`"aaaaaaaaaa"` (lengths 9 and 10, one a
substring of the other, not equal) the code returns `9/10 + 1/5 = 11/10 > 1`,
contradicting the documented range `[0, 1]`. -/
theorem similarity_exceeds_one_on_containment :
    calculateTextSimilarity "aaaaaaaaa" "aaaaaaaaaa" = 11/10 ∧
      (1 : ℚ) < calculateTextSimilarity "aaaaaaaaa" "aaaaaaaaaa" := by
  have h9 : (jsLower "aaaaaaaaa").length = 9 := by decide
  have h10 : (jsLower "aaaaaaaaaa").length = 10 := by decide
  have hne : ¬ (jsLower "aaaaaaaaa" = jsLower "aaaaaaaaaa") := by decide
  have hinc : (strIncludes (jsLower "aaaaaaaaa") (jsLower "aaaaaaaaaa") ∨
      strIncludes (jsLower "aaaaaaaaaa") (jsLower "aaaaaaaaa")) := by decide
  have hval : calculateTextSimilarity "aaaaaaaaa" "aaaaaaaaaa" = 11/10 := by
    simp [calculateTextSimilarity, h9, h10, hne, hinc]
    norm_num [min_def, max_def]
  exact ⟨hval, by rw [hval]; norm_num⟩

/-!
## `TranscriptClient._improveSpeakerAssignment` (src/transcript-client.ts 184–263)

The TS code sorts, then runs **two** separate index loops over the array,
mutating it in place, and finally filters out segments whose speaker is the
`"SKIP"` sentinel.  The first loop applies only the short-continuation rule;
the second applies the cross-source duplicate, long-pause, three-in-a-row and
system-source rules.  Each loop iteration reads the current array state, so we
model a loop as a `foldl` of per-index steps over `[1, …, n-1]`.
-/

/-- One iteration of the first loop: a short segment (`< 8` chars) after a
short pause (`< 0.5 s`) inherits the previous segment's speaker with
confidence `0.8`. -/
def pass1Step (a : List Seg) (i : ℕ) : List Seg :=
  let prev := a.getD (i - 1) default
  let curr := a.getD i default
  let timeDiff := (curr.start_time - prev.end_time) / 1000
  if optTextLen curr.text < 8 ∧ timeDiff < 1/2 then
    a.set i { curr with speaker := prev.speaker, confidence := 4/5 }
  else a

/-- The first loop (`for i in 1 .. n-1`). -/
def pass1 (l : List Seg) : List Seg :=
  (List.range' 1 (l.length - 1)).foldl pass1Step l

/-- Rules 3–5 of the second loop (reached when the cross-source duplicate
check falls through): long pause, three-in-a-row continuation, and the two
system-source sub-rules. -/
def pass2Rest (a : List Seg) (i : ℕ) (prev curr : Seg) : List Seg :=
  let timeDiff := (curr.start_time - prev.end_time) / 1000
  if 2 < timeDiff then a
  else if 2 ≤ i ∧ (a.getD (i - 2) default).speaker = prev.speaker ∧ timeDiff < 3/2 then
    a.set i { curr with speaker := prev.speaker, confidence := 3/4 }
  else if prev.source = some "system" ∧ curr.source = some "system" then
    if optTextLen curr.text < 15 ∧ timeDiff < 1 then
      a.set i { curr with speaker := prev.speaker, confidence := 7/10 }
    else if prev.speaker = "Them" ∧ timeDiff < 6/5 then
      a.set i { curr with speaker := "Them" }
    else a
  else a

/-- One iteration of the second loop.  When the sources differ and the texts
are similar (`> 0.65`), the system-source member of the pair is marked
`"SKIP"`; when the sources differ and the texts are dissimilar the iteration
stops (`continue`); when the sources differ, the texts are similar, but
neither is the microphone/system pattern, the TS code falls through to the
remaining rules. -/
def pass2Step (a : List Seg) (i : ℕ) : List Seg :=
  let prev := a.getD (i - 1) default
  let curr := a.getD i default
  if prev.source ≠ curr.source then
    if 13/20 < simSeg prev curr then
      if curr.source = some "system" ∧ prev.source = some "microphone" then
        a.set i { curr with speaker := "SKIP" }
      else if curr.source = some "microphone" ∧ prev.source = some "system" then
        a.set (i - 1) { prev with speaker := "SKIP" }
      else pass2Rest a i prev curr
    else a
  else pass2Rest a i prev curr

/-- The second loop (`for i in 1 .. n-1`). -/
def pass2 (l : List Seg) : List Seg :=
  (List.range' 1 (l.length - 1)).foldl pass2Step l

/-- `_improveSpeakerAssignment(segments)`. -/
def improveSpeakerAssignment (segs : List Seg) : List Seg :=
  if segs.isEmpty then []
  else (pass2 (pass1 (sortByStart segs))).filter (fun s => s.speaker ≠ "SKIP")

/-!
### The claimed single-pass reading, and per-pair rule selection
-/

/-- Modelled from the spec: the refiner as §4.4 describes it — the five rules
applied in a **single** forward pass over the sorted sequence, mutually
exclusive per adjacent pair via early-continue (first matching rule wins),
followed by dropping `"SKIP"`-marked segments. -/
def specRefineStep (a : List Seg) (i : ℕ) : List Seg :=
  let prev := a.getD (i - 1) default
  let curr := a.getD i default
  let timeDiff := (curr.start_time - prev.end_time) / 1000
  if optTextLen curr.text < 8 ∧ timeDiff < 1/2 then
    a.set i { curr with speaker := prev.speaker, confidence := 4/5 }
  else if prev.source ≠ curr.source ∧ 13/20 < simSeg prev curr then
    if curr.source = some "system" ∧ prev.source = some "microphone" then
      a.set i { curr with speaker := "SKIP" }
    else if curr.source = some "microphone" ∧ prev.source = some "system" then
      a.set (i - 1) { prev with speaker := "SKIP" }
    else a
  else if 2 < timeDiff then a
  else if 2 ≤ i ∧ (a.getD (i - 2) default).speaker = prev.speaker ∧ timeDiff < 3/2 then
    a.set i { curr with speaker := prev.speaker, confidence := 3/4 }
  else if prev.source = some "system" ∧ curr.source = some "system" then
    if optTextLen curr.text < 15 ∧ timeDiff < 1 then
      a.set i { curr with speaker := prev.speaker, confidence := 7/10 }
    else if prev.speaker = "Them" ∧ timeDiff < 6/5 then
      a.set i { curr with speaker := "Them" }
    else a
  else a

/-- Modelled from the spec: the whole refiner under the single-pass reading. -/
def specSinglePassRefine (segs : List Seg) : List Seg :=
  if segs.isEmpty then []
  else
    (((List.range' 1 ((sortByStart segs).length - 1)).foldl specRefineStep
        (sortByStart segs)).filter (fun s => s.speaker ≠ "SKIP"))

/-- The rules of the second loop, as names. -/
inductive RefineRule where
  | noRule | crossDissimilar | longPause | dropCurr | dropPrev
  | threeInRow | sysShort | sysThem
deriving DecidableEq, Repr

/-- The effect of a single second-loop rule at pair `(i-1, i)`. -/
def applyRule (a : List Seg) (i : ℕ) : RefineRule → List Seg
  | .dropCurr => a.set i { a.getD i default with speaker := "SKIP" }
  | .dropPrev => a.set (i - 1) { a.getD (i - 1) default with speaker := "SKIP" }
  | .threeInRow =>
    a.set i { a.getD i default with
      speaker := (a.getD (i - 1) default).speaker, confidence := 3/4 }
  | .sysShort =>
    a.set i { a.getD i default with
      speaker := (a.getD (i - 1) default).speaker, confidence := 7/10 }
  | .sysThem => a.set i { a.getD i default with speaker := "Them" }
  | _ => a

/-- Which of rules 3–5 the guards select. -/
def pass2RestRule (a : List Seg) (i : ℕ) (prev curr : Seg) : RefineRule :=
  let timeDiff := (curr.start_time - prev.end_time) / 1000
  if 2 < timeDiff then .longPause
  else if 2 ≤ i ∧ (a.getD (i - 2) default).speaker = prev.speaker ∧ timeDiff < 3/2 then
    .threeInRow
  else if prev.source = some "system" ∧ curr.source = some "system" then
    if optTextLen curr.text < 15 ∧ timeDiff < 1 then .sysShort
    else if prev.speaker = "Them" ∧ timeDiff < 6/5 then .sysThem
    else .noRule
  else .noRule

/-- Which second-loop rule the guards select at pair `(i-1, i)` —
the first rule whose guard holds, in the loop's priority order. -/
def pass2Rule (a : List Seg) (i : ℕ) : RefineRule :=
  let prev := a.getD (i - 1) default
  let curr := a.getD i default
  if prev.source ≠ curr.source then
    if 13/20 < simSeg prev curr then
      if curr.source = some "system" ∧ prev.source = some "microphone" then .dropCurr
      else if curr.source = some "microphone" ∧ prev.source = some "system" then .dropPrev
      else pass2RestRule a i prev curr
    else .crossDissimilar
  else pass2RestRule a i prev curr

theorem pass2Rest_eq_applyRule (a : List Seg) (i : ℕ) :
    pass2Rest a i (a.getD (i - 1) default) (a.getD i default)
      = applyRule a i (pass2RestRule a i (a.getD (i - 1) default) (a.getD i default)) := by
  by_cases hE : 2 < ((a.getD i default).start_time - (a.getD (i - 1) default).end_time) / 1000
  · simp only [pass2Rest, pass2RestRule, if_pos hE]
    rfl
  · by_cases hF : 2 ≤ i ∧ (a.getD (i - 2) default).speaker = (a.getD (i - 1) default).speaker
        ∧ ((a.getD i default).start_time - (a.getD (i - 1) default).end_time) / 1000 < 3/2
    · simp only [pass2Rest, pass2RestRule, if_neg hE, if_pos hF]
      rfl
    · by_cases hG : (a.getD (i - 1) default).source = some "system"
          ∧ (a.getD i default).source = some "system"
      · by_cases hH : optTextLen (a.getD i default).text < 15
            ∧ ((a.getD i default).start_time - (a.getD (i - 1) default).end_time) / 1000 < 1
        · simp only [pass2Rest, pass2RestRule, if_neg hE, if_neg hF, if_pos hG, if_pos hH]
          rfl
        · by_cases hI : (a.getD (i - 1) default).speaker = "Them"
              ∧ ((a.getD i default).start_time - (a.getD (i - 1) default).end_time) / 1000 < 6/5
          · simp only [pass2Rest, pass2RestRule, if_neg hE, if_neg hF, if_pos hG, if_neg hH,
              if_pos hI]
            rfl
          · simp only [pass2Rest, pass2RestRule, if_neg hE, if_neg hF, if_pos hG, if_neg hH,
              if_neg hI]
            rfl
      · simp only [pass2Rest, pass2RestRule, if_neg hE, if_neg hF, if_neg hG]
        rfl

/-- Within the second loop, each iteration applies the effect of exactly the
one selected rule — rules 2–5 are mutually exclusive per pair, never
cumulative. -/
theorem pass2Step_eq_applyRule (a : List Seg) (i : ℕ) :
    pass2Step a i = applyRule a i (pass2Rule a i) := by
  by_cases hA : (a.getD (i - 1) default).source ≠ (a.getD i default).source
  · by_cases hB : 13/20 < simSeg (a.getD (i - 1) default) (a.getD i default)
    · by_cases hC : (a.getD i default).source = some "system"
          ∧ (a.getD (i - 1) default).source = some "microphone"
      · simp only [pass2Step, pass2Rule, if_pos hA, if_pos hB, if_pos hC]
        rfl
      · by_cases hD : (a.getD i default).source = some "microphone"
            ∧ (a.getD (i - 1) default).source = some "system"
        · simp only [pass2Step, pass2Rule, if_pos hA, if_pos hB, if_neg hC, if_pos hD]
          rfl
        · simp only [pass2Step, pass2Rule, if_pos hA, if_pos hB, if_neg hC, if_neg hD]
          exact pass2Rest_eq_applyRule a i
    · simp only [pass2Step, pass2Rule, if_pos hA, if_neg hB]
      rfl
  · simp only [pass2Step, pass2Rule, if_neg hA]
    exact pass2Rest_eq_applyRule a i

/-- The concrete three-segment input separating the code from the
single-pass reading: all three share source and speaker; the second starts
3 s after the first ends; the third is short (`"hi"`) and starts 0.3 s after
the second ends. -/
def refineExample : List Seg :=
  [{ text := some "hello there", source := some "microphone", speaker := "Me",
     start_time := 0, end_time := 1000, confidence := 1 },
   { text := some "hello hello", source := some "microphone", speaker := "Me",
     start_time := 4000, end_time := 5000, confidence := 1 },
   { text := some "hi", source := some "microphone", speaker := "Me",
     start_time := 5300, end_time := 6000, confidence := 1 }]

/-- C7 (counterexample): on `refineExample` the code's two-pass refiner and
the claimed single-pass reading disagree — the code's first pass gives the
third segment confidence `0.8` (rule 1) and its second pass then *also*
applies the three-in-a-row rule, overwriting the confidence with `0.75`,
whereas a single mutually-exclusive pass would stop after rule 1 and leave
`0.8`. -/
theorem refine_differs_from_single_pass :
    improveSpeakerAssignment refineExample ≠ specSinglePassRefine refineExample := by
  have h1 : (improveSpeakerAssignment refineExample).map Seg.confidence = [1, 1, 3/4] := by
    norm_num +decide [improveSpeakerAssignment, pass1, pass2, pass1Step, pass2Step, pass2Rest,
      sortByStart, insertByStart, List.range', refineExample, optTextLen]
  have h2 : (specSinglePassRefine refineExample).map Seg.confidence = [1, 1, 4/5] := by
    norm_num +decide [specSinglePassRefine, specRefineStep, sortByStart, insertByStart,
      List.range', refineExample, optTextLen]
  intro h
  rw [h, h2] at h1
  norm_num at h1

/-- C7 (amended): the refiner applies its rules in **two** forward passes over
the sorted sequence — rule 1 (short continuation) in a first pass, rules 2–5
in a second pass — each segment compared to its immediate predecessor; within
the second pass at most one rule's effect is applied per adjacent pair (via
early-continue, never cumulatively), but a pair may additionally have received
rule 1's effect in the first pass. -/
theorem refine_two_pass_structure :
    (∀ segs : List Seg, improveSpeakerAssignment segs
        = (pass2 (pass1 (sortByStart segs))).filter (fun s => s.speaker ≠ "SKIP"))
    ∧ ∀ (a : List Seg) (i : ℕ), pass2Step a i = applyRule a i (pass2Rule a i) := by
  constructor
  · intro segs
    by_cases h : segs.isEmpty
    · rw [List.isEmpty_iff.mp h]
      rfl
    · simp only [improveSpeakerAssignment, if_neg h]
  · exact pass2Step_eq_applyRule

/-!
## `TranscriptClient.exportTranscriptMarkdown` (src/transcript-client.ts 356–410)

The content-building loop of the exporter.  The TS code initialises
`content = " \n"` ("Start with a blank line like the example"), then walks
the segments keeping a running speaker and a buffer of accumulated texts;
on a speaker change it appends `"<speaker>:  \n"`, one `"<text>  \n"` line
per buffered text, and a blank line; after the loop it flushes the final
buffer without the trailing blank line.  We write the loop as a recursion
that emits the same string left to right; the state is the running
`(currentSpeaker, currentText)` pair (`none` before the first segment).
-/

/-- The buffered-lines part of a flush: one `"<text>  \n"` line per text. -/
def flushLines : List String → String
  | [] => ""
  | t :: ts => t ++ "  \n" ++ flushLines ts

/-- The exporter loop from a given `(currentSpeaker, currentText)` state,
including the final flush (which the TS code guards with
`currentSpeaker !== null && currentText.length`). -/
def exportGo : Option (String × List String) → List Seg → String
  | none, [] => ""
  | some (spk, txts), [] =>
    if txts.isEmpty then "" else spk ++ ":  \n" ++ flushLines txts
  | none, s :: rest => exportGo (some (s.speaker, [s.text.getD ""])) rest
  | some (spk, txts), s :: rest =>
    if spk ≠ s.speaker then
      spk ++ ":  \n" ++ flushLines txts ++ "\n"
        ++ exportGo (some (s.speaker, [s.text.getD ""])) rest
    else
      exportGo (some (spk, txts ++ [s.text.getD ""])) rest

/-- The full content built by `exportTranscriptMarkdown` for a transcript
(the part before the `Bun.write` boundary call). -/
def buildMarkdownContent (transcript : List Seg) : String :=
  " \n" ++ exportGo none transcript

/-- Maximal runs of consecutive same-speaker segments, each with its texts. -/
def runsBySpeaker : List Seg → List (String × List String)
  | [] => []
  | s :: rest =>
    match runsBySpeaker rest with
    | [] => [(s.speaker, [s.text.getD ""])]
    | (spk, ts) :: more =>
      if spk = s.speaker then (spk, s.text.getD "" :: ts) :: more
      else (s.speaker, [s.text.getD ""]) :: (spk, ts) :: more

/-- Sections joined by a blank line *between* them. -/
def joinSections : List String → String
  | [] => ""
  | [x] => x
  | x :: y :: rest => x ++ "\n" ++ joinSections (y :: rest)

/-- Modelled from the spec: the output shape the claim asserts — exactly the
concatenation, over maximal same-speaker runs in order, of
`"<speaker>:  \n"` followed by one `"<text>  \n"` line per segment, with a
blank line between speaker sections and no other leading or trailing
content. -/
def claimRender (l : List Seg) : String :=
  joinSections ((runsBySpeaker l).map (fun r => r.1 ++ ":  \n" ++ flushLines r.2))

/-- Merging a pending buffer into the run decomposition of the rest. -/
def mergeHead (spk : String) (txts : List String) :
    List (String × List String) → List (String × List String)
  | [] => [(spk, txts)]
  | (spk2, ts) :: more =>
    if spk2 = spk then (spk, txts ++ ts) :: more
    else (spk, txts) :: (spk2, ts) :: more

theorem runsBySpeaker_cons (s : Seg) (rest : List Seg) :
    runsBySpeaker (s :: rest) = mergeHead s.speaker [s.text.getD ""] (runsBySpeaker rest) := by
  rw [runsBySpeaker]
  cases h : runsBySpeaker rest with
  | nil => rfl
  | cons r more =>
    obtain ⟨spk, ts⟩ := r
    dsimp only
    by_cases hs : spk = s.speaker
    · rw [if_pos hs, mergeHead, if_pos hs, hs]
      rfl
    · rw [if_neg hs, mergeHead, if_neg hs]

theorem runsBySpeaker_head (s : Seg) (rest : List Seg) :
    ∃ ts more, runsBySpeaker (s :: rest) = (s.speaker, ts) :: more := by
  rw [runsBySpeaker_cons]
  cases runsBySpeaker rest with
  | nil => exact ⟨_, _, rfl⟩
  | cons r more =>
    obtain ⟨spk, ts⟩ := r
    by_cases hs : spk = s.speaker
    · rw [mergeHead, if_pos hs]
      exact ⟨_, _, rfl⟩
    · rw [mergeHead, if_neg hs]
      exact ⟨_, _, rfl⟩

theorem exportGo_merge (rest : List Seg) :
    ∀ spk txts, txts ≠ [] →
      exportGo (some (spk, txts)) rest
        = joinSections ((mergeHead spk txts (runsBySpeaker rest)).map
            (fun r => r.1 ++ ":  \n" ++ flushLines r.2)) := by
  induction rest with
  | nil =>
    intro spk txts h
    rw [exportGo, if_neg (by simpa using h)]
    rfl
  | cons s rest ih =>
    intro spk txts h
    by_cases hs : spk ≠ s.speaker
    · rw [exportGo, if_pos hs, ih s.speaker [s.text.getD ""] (by simp),
        ← runsBySpeaker_cons]
      obtain ⟨ts, more, hruns⟩ := runsBySpeaker_head s rest
      rw [hruns, mergeHead, if_neg (fun hc => hs hc.symm)]
      simp only [List.map_cons, joinSections]
    · push_neg at hs
      rw [exportGo, if_neg (by simp [hs]), ih spk (txts ++ [s.text.getD ""]) (by simp),
        runsBySpeaker_cons, ← hs]
      cases hr : runsBySpeaker rest with
      | nil => simp [mergeHead]
      | cons r more =>
        obtain ⟨spk2, ts⟩ := r
        by_cases h2 : spk2 = spk
        · simp [mergeHead, h2]
        · simp [mergeHead, h2]

/-- C8 (amended): for every segment sequence, the exporter's content is the
leading `" \n"` line followed by exactly the run-based concatenation the
spec describes (speaker header, one hard-break line per text, blank line
between sections, final run flushed without a trailing blank line). -/
theorem buildMarkdownContent_eq (transcript : List Seg) :
    buildMarkdownContent transcript = " \n" ++ claimRender transcript := by
  rw [buildMarkdownContent, claimRender]
  cases transcript with
  | nil => rfl
  | cons s rest =>
    rw [exportGo, exportGo_merge rest s.speaker [s.text.getD ""] (by simp),
      runsBySpeaker_cons]

/-- C8 (counterexample): on the one-segment transcript
`[{speaker := "Me", text := "hi"}]` the exporter emits
`" \nMe:  \nhi  \n"`, while the claimed shape (with no extra leading
content) is `"Me:  \nhi  \n"` — the code prepends a `" \n"` line. -/
theorem buildMarkdownContent_has_leading_line :
    buildMarkdownContent
        [{ text := some "hi", source := some "microphone", speaker := "Me",
           start_time := 0, end_time := 1000, confidence := 1 }]
      ≠ claimRender
        [{ text := some "hi", source := some "microphone", speaker := "Me",
           start_time := 0, end_time := 1000, confidence := 1 }] := by
  decide

/-!
## The HTTP transport (src/http.ts)

`Http.request` loops over attempts `0 .. retries`, calling `fetch` once per
attempt; we model the sequence of fetch outcomes as a script indexed by the
attempt number, and record the number of fetch calls made and the sleep
durations requested.  JSON parsing is represented by returning the response
body when the content type indicates JSON (the NODE_ENV=test shortcut is not
modelled).  Backoff values are in milliseconds (`ℤ`, since a `Retry-After`
header can parse to a negative number).
-/

/-- Leading decimal digits of a character list, as a number (`none` if the
list does not start with a digit). -/
def parseDigits (l : List Char) : Option ℕ :=
  let ds := l.takeWhile (fun c => c.isDigit)
  if ds.isEmpty then none
  else some (ds.foldl (fun n c => 10 * n + (c.toNat - '0'.toNat)) 0)

/-- `parseInt(s, 10)`: skip leading whitespace, optional sign, then leading
digits; `NaN` (here `none`) when no digits follow. -/
def parseIntPrefix (s : String) : Option ℤ :=
  match s.data.dropWhile (fun c => c.isWhitespace) with
  | '-' :: r => (parseDigits r).map (fun n => -(n : ℤ))
  | '+' :: r => (parseDigits r).map (fun n => (n : ℤ))
  | r => (parseDigits r).map (fun n => (n : ℤ))

/-- `Http.getBackoffDelay(attempt, retryAfterHeader)` (src/http.ts 88–94):
the parsed `Retry-After` header in seconds times 1000 when the header is
truthy and parses to a number, else `Math.pow(2, attempt) * 250`. -/
def getBackoffDelay (attempt : ℕ) (retryAfterHeader : Option String) : ℤ :=
  match retryAfterHeader with
  | none => ((2 ^ attempt * 250 : ℕ) : ℤ)
  | some h =>
    if h = "" then ((2 ^ attempt * 250 : ℕ) : ℤ)
    else
      match parseIntPrefix h with
      | some seconds => seconds * 1000
      | none => ((2 ^ attempt * 250 : ℕ) : ℤ)

/-- One HTTP response as the retry loop reads it. -/
structure Resp where
  status : ℕ
  statusText : String
  body : String
  retryAfter : Option String
  contentType : String
deriving DecidableEq, Repr

/-- The outcome of one `fetch` attempt. -/
inductive FetchOutcome where
  | resp (r : Resp)
  | abortError
  | networkError (msg : String)
deriving Repr

instance {ε α : Type} [DecidableEq ε] [DecidableEq α] : DecidableEq (Except ε α)
  | .ok a, .ok b =>
    if h : a = b then isTrue (congrArg Except.ok h)
    else isFalse (fun hc => h (Except.ok.inj hc))
  | .error a, .error b =>
    if h : a = b then isTrue (congrArg Except.error h)
    else isFalse (fun hc => h (Except.error.inj hc))
  | .ok _, .error _ => isFalse (fun hc => Except.noConfusion hc)
  | .error _, .ok _ => isFalse (fun hc => Except.noConfusion hc)

/-- The observable result of `Http.request`: the value or thrown error,
the number of `fetch` calls made, and the sleeps requested (in ms). -/
structure ReqResult where
  result : Except String (Option String)
  attempts : ℕ
  delays : List ℤ
deriving DecidableEq, Repr

/-- The retry loop of `Http.request` (src/http.ts 140–212).  `left` counts
the remaining loop iterations (`retries + 1` at entry).  Note that the
"non-retriable error" `throw` at line 190 sits inside the `try` block, so the
`catch` at line 191 intercepts it and retries it like any other error while
`attempt < retries`. -/
def requestGo (script : ℕ → FetchOutcome) (retries timeout : ℕ) :
    ℕ → ℕ → Option String → List ℤ → ReqResult
  | 0, attempt, lastErr, delays =>
    { result := .error (lastErr.getD "undefined"), attempts := attempt, delays := delays }
  | left + 1, attempt, lastErr, delays =>
    match script attempt with
    | .resp r =>
      if 200 ≤ r.status ∧ r.status ≤ 299 then
        if strIncludes r.contentType "application/json" then
          { result := .ok (some r.body), attempts := attempt + 1, delays := delays }
        else { result := .ok none, attempts := attempt + 1, delays := delays }
      else if r.status = 429 ∨ (500 ≤ r.status ∧ r.status < 600) then
        requestGo script retries timeout left (attempt + 1) lastErr
          (delays ++ [getBackoffDelay attempt r.retryAfter])
      else
        if attempt < retries then
          requestGo script retries timeout left (attempt + 1)
            (some ("HTTP " ++ toString r.status ++ " " ++ r.statusText ++ ": " ++ r.body))
            (delays ++ [getBackoffDelay attempt none])
        else
          { result := .error ("HTTP " ++ toString r.status ++ " " ++ r.statusText
              ++ ": " ++ r.body),
            attempts := attempt + 1, delays := delays }
    | .abortError =>
      if attempt < retries then
        requestGo script retries timeout left (attempt + 1) (some "AbortError")
          (delays ++ [getBackoffDelay attempt none])
      else
        { result := .error ("Request timed out after " ++ toString timeout ++ " ms"),
          attempts := attempt + 1, delays := delays }
    | .networkError msg =>
      if attempt < retries then
        requestGo script retries timeout left (attempt + 1) (some msg)
          (delays ++ [getBackoffDelay attempt none])
      else { result := .error msg, attempts := attempt + 1, delays := delays }

/-- `Http.ensureToken` (src/http.ts 101–132): keep a truthy token; otherwise
consult the token provider if one is set (its failure is wrapped); otherwise
**return silently with no token and no error**. -/
def ensureToken (token : Option String) (provider : Option (Except String String)) :
    Except String (Option String) :=
  if jsTruthyStr token then .ok token
  else
    match provider with
    | none => .ok token
    | some (.ok t) => .ok (some t)
    | some (.error msg) =>
      .error ("Failed to retrieve authentication token: " ++ msg)

/-- `Http.request`: `ensureToken`, then the retry loop over
`attempt = 0 .. retries`. -/
def requestModel (token : Option String) (provider : Option (Except String String))
    (retries timeout : ℕ) (script : ℕ → FetchOutcome) : ReqResult :=
  match ensureToken token provider with
  | .error e => { result := .error e, attempts := 0, delays := [] }
  | .ok _ => requestGo script retries timeout (retries + 1) 0 none []

/-!
### Header construction (src/http.ts 144–165 and 237–254)

JS object semantics: string-keyed, insertion-ordered, assignment overwrites
in place.  `Object.assign(headers, this.clientHeaders)` runs last.
-/

/-- `r[k] = v` on a JS object represented as an insertion-ordered record. -/
def recordSet (r : List (String × String)) (k v : String) : List (String × String) :=
  if r.any (fun p => p.1 = k) then
    r.map (fun p => if p.1 = k then (k, v) else p)
  else r ++ [(k, v)]

/-- `r[k]` on a JS object. -/
def recordGet (r : List (String × String)) (k : String) : Option String :=
  (r.find? (fun p => p.1 = k)).map (fun p => p.2)

/-- The transport's identity configuration (defaults from the constructor). -/
structure HttpConfig where
  appVersion : String := "6.4.0"
  clientType : String := "electron"
  clientPlatform : String := "darwin"
  clientArchitecture : String := "arm64"
  electronVersion : String := "33.4.5"
  chromeVersion : String := "130.0.6723.191"
  nodeVersion : String := "20.18.3"
  osVersion : String := "15.3.1"
  osBuild : String := "24D70"
  clientHeaders : List (String × String) := []

/-- The synthesized `User-Agent` value. -/
def userAgent (cfg : HttpConfig) : String :=
  "Granola/" ++ cfg.appVersion ++ " Electron/" ++ cfg.electronVersion ++ " Chrome/"
    ++ cfg.chromeVersion ++ " Node/" ++ cfg.nodeVersion ++ " (macOS " ++ cfg.osVersion
    ++ " " ++ cfg.osBuild ++ ")"

/-- The six always-added client identification headers. -/
def identityHeaders (cfg : HttpConfig) (r : List (String × String)) :
    List (String × String) :=
  let r := recordSet r "X-App-Version" cfg.appVersion
  let r := recordSet r "User-Agent" (userAgent cfg)
  let r := recordSet r "X-Client-Type" cfg.clientType
  let r := recordSet r "X-Client-Platform" cfg.clientPlatform
  let r := recordSet r "X-Client-Architecture" cfg.clientArchitecture
  recordSet r "X-Client-Id" ("granola-" ++ cfg.clientType ++ "-" ++ cfg.appVersion)

/-- The headers `Http.request` sends: content headers, conditional
`Authorization`, identity headers, then `Object.assign` of `clientHeaders`. -/
def requestHeaders (token : Option String) (cfg : HttpConfig) : List (String × String) :=
  let h := [("Content-Type", "application/json"), ("Accept", "application/json")]
  let h := if jsTruthyStr token then recordSet h "Authorization" ("Bearer " ++ token.getD "") else h
  let h := identityHeaders cfg h
  cfg.clientHeaders.foldl (fun acc p => recordSet acc p.1 p.2) h

/-- The headers `Http.getText` sends (no content headers). -/
def getTextHeaders (token : Option String) (cfg : HttpConfig) : List (String × String) :=
  let h : List (String × String) := []
  let h := if jsTruthyStr token then recordSet h "Authorization" ("Bearer " ++ token.getD "") else h
  let h := identityHeaders cfg h
  cfg.clientHeaders.foldl (fun acc p => recordSet acc p.1 p.2) h

/-!
### Record (JS object) lemmas
-/

theorem recordGet_cons (p : String × String) (r : List (String × String)) (k : String) :
    recordGet (p :: r) k = if p.1 = k then some p.2 else recordGet r k := by
  by_cases hp : p.1 = k
  · simp [recordGet, List.find?_cons, hp]
  · simp [recordGet, List.find?_cons, hp]

theorem recordGet_overwrite (k v : String) :
    ∀ r : List (String × String), r.any (fun p => p.1 = k) = true →
      recordGet (r.map (fun p => if p.1 = k then (k, v) else p)) k = some v := by
  intro r
  induction r with
  | nil => intro h; simp at h
  | cons p r ih =>
    intro h
    by_cases hp : p.1 = k
    · rw [List.map_cons, if_pos hp, recordGet_cons]
      simp
    · rw [List.map_cons, if_neg hp, recordGet_cons, if_neg hp]
      simp only [List.any_cons, Bool.or_eq_true, decide_eq_true_eq] at h
      rcases h with h | h
      · exact absurd h hp
      · exact ih h

theorem recordGet_append_single (k v : String) :
    ∀ r : List (String × String), r.any (fun p => p.1 = k) = false →
      recordGet (r ++ [(k, v)]) k = some v := by
  intro r
  induction r with
  | nil => simp [recordGet, List.find?_cons]
  | cons p r ih =>
    intro h
    simp only [List.any_cons, Bool.or_eq_false_iff, decide_eq_false_iff_not] at h
    rw [List.cons_append, recordGet_cons, if_neg h.1]
    exact ih h.2

theorem recordGet_set_self (r : List (String × String)) (k v : String) :
    recordGet (recordSet r k v) k = some v := by
  rw [recordSet]
  split_ifs with h
  · exact recordGet_overwrite k v r h
  · exact recordGet_append_single k v r (Bool.eq_false_iff.mpr h)

theorem recordGet_map_other (k v k' : String) (h : k' ≠ k) :
    ∀ r : List (String × String),
      recordGet (r.map (fun p => if p.1 = k then (k, v) else p)) k' = recordGet r k' := by
  intro r
  induction r with
  | nil => rfl
  | cons p r ih =>
    rw [List.map_cons]
    by_cases hp : p.1 = k
    · have hp' : ¬ p.1 = k' := by
        rw [hp]
        exact fun hc => h hc.symm
      rw [if_pos hp, recordGet_cons, recordGet_cons, if_neg hp',
        if_neg (fun hc : (k, v).1 = k' => h (Eq.symm hc))]
      exact ih
    · rw [if_neg hp, recordGet_cons, recordGet_cons]
      by_cases hp' : p.1 = k'
      · rw [if_pos hp', if_pos hp']
      · rw [if_neg hp', if_neg hp']
        exact ih

theorem recordGet_append_other (k v k' : String) (h : k' ≠ k) :
    ∀ r : List (String × String), recordGet (r ++ [(k, v)]) k' = recordGet r k' := by
  intro r
  induction r with
  | nil =>
    simp only [List.nil_append]
    rw [recordGet_cons, if_neg (fun hc : (k, v).1 = k' => h (Eq.symm hc))]
  | cons p r ih =>
    rw [List.cons_append, recordGet_cons, recordGet_cons]
    by_cases hp' : p.1 = k'
    · rw [if_pos hp', if_pos hp']
    · rw [if_neg hp', if_neg hp']
      exact ih

theorem recordGet_set_other (r : List (String × String)) (k v k' : String) (h : k' ≠ k) :
    recordGet (recordSet r k v) k' = recordGet r k' := by
  rw [recordSet]
  split_ifs with hx
  · exact recordGet_map_other k v k' h r
  · exact recordGet_append_other k v k' h r

theorem recordGet_assign_not_mem (k : String) :
    ∀ (es : List (String × String)) (r : List (String × String)),
      (∀ e ∈ es, e.1 ≠ k) →
      recordGet (es.foldl (fun acc p => recordSet acc p.1 p.2) r) k = recordGet r k := by
  intro es
  induction es with
  | nil => intro r _; rfl
  | cons e es ih =>
    intro r h
    rw [List.foldl_cons, ih (recordSet r e.1 e.2) (fun x hx => h x (List.mem_cons_of_mem _ hx)),
      recordGet_set_other r e.1 e.2 k (fun hc => h e (List.mem_cons_self _ _) hc.symm)]

theorem recordGet_assign_mem (k v : String) :
    ∀ (es : List (String × String)) (r : List (String × String)),
      (es.map Prod.fst).Nodup → (k, v) ∈ es →
      recordGet (es.foldl (fun acc p => recordSet acc p.1 p.2) r) k = some v := by
  intro es
  induction es with
  | nil => intro r _ hmem; exact absurd hmem (List.not_mem_nil _)
  | cons e es ih =>
    intro r hnodup hmem
    rw [List.map_cons, List.nodup_cons] at hnodup
    rcases List.mem_cons.mp hmem with rfl | hmem
    · rw [List.foldl_cons]
      rw [recordGet_assign_not_mem k es (recordSet r (k, v).1 (k, v).2) ?_,
        recordGet_set_self]
      intro x hx hc
      have hxm : x.1 ∈ List.map Prod.fst es := List.mem_map_of_mem Prod.fst hx
      rw [hc] at hxm
      exact hnodup.1 hxm
    · rw [List.foldl_cons]
      exact ih (recordSet r e.1 e.2) hnodup.2 hmem

/-!
### Transport claim scripts and lemmas
-/

/-- A server that always answers 200 with a JSON body `{}`. -/
def okJsonScript : ℕ → FetchOutcome := fun _ =>
  .resp { status := 200, statusText := "OK", body := "{}", retryAfter := none,
          contentType := "application/json" }

/-- A server that always answers 400. -/
def all400Script : ℕ → FetchOutcome := fun _ =>
  .resp { status := 400, statusText := "Bad Request", body := "nope", retryAfter := none,
          contentType := "text/plain" }

/-- A server that always answers 429 with no `Retry-After` header. -/
def all429Script : ℕ → FetchOutcome := fun _ =>
  .resp { status := 429, statusText := "Too Many Requests", body := "", retryAfter := none,
          contentType := "" }

theorem requestGo_all429 (retries timeout : ℕ) :
    ∀ left attempt lastErr delays,
      requestGo all429Script retries timeout left attempt lastErr delays
        = { result := .error (lastErr.getD "undefined"), attempts := attempt + left,
            delays := delays
              ++ (List.range' attempt left).map (fun a => getBackoffDelay a none) } := by
  intro left
  induction left with
  | zero =>
    intro attempt lastErr delays
    simp [requestGo]
  | succ left ih =>
    intro attempt lastErr delays
    simp only [requestGo, all429Script]
    rw [if_neg (by decide), if_pos (by decide), ih]
    simp [ReqResult.mk.injEq, List.range'_succ attempt left 1, List.append_assoc]
    omega

/-- C5: the sleep before the next retry is the parsed `Retry-After` header in
seconds converted to ms whenever the header is present (truthy) and numeric,
and otherwise exactly `250 × 2^attempt` ms — in particular an all-429 run
with no header sleeps `250·2^0, 250·2^1, …` across its attempts. -/
theorem backoff_delay_spec (n : ℕ) (hdr : Option String) :
    (∀ h k, hdr = some h → h ≠ "" → parseIntPrefix h = some k →
        getBackoffDelay n hdr = k * 1000)
    ∧ ((hdr = none ∨ hdr = some "" ∨ ∃ h, hdr = some h ∧ parseIntPrefix h = none) →
        getBackoffDelay n hdr = 250 * 2 ^ n)
    ∧ (∀ retries timeout : ℕ,
        (requestModel (some "tok") none retries timeout all429Script).delays
          = (List.range' 0 (retries + 1)).map (fun a => (250 * 2 ^ a : ℤ))) := by
  refine ⟨?_, ?_, ?_⟩
  · rintro h k rfl hne hparse
    simp only [getBackoffDelay, if_neg hne, hparse]
  · rintro (rfl | rfl | ⟨h, rfl, hparse⟩)
    · rw [getBackoffDelay]
      push_cast
      ring
    · rw [getBackoffDelay, if_pos rfl]
      push_cast
      ring
    · by_cases he : h = ""
      · simp only [getBackoffDelay, if_pos he]
        push_cast
        ring
      · simp only [getBackoffDelay, if_neg he, hparse]
        push_cast
        ring
  · intro retries timeout
    show (requestGo all429Script retries timeout (retries + 1) 0 none []).delays
        = (List.range' 0 (retries + 1)).map (fun a => (250 * 2 ^ a : ℤ))
    rw [requestGo_all429 retries timeout (retries + 1) 0 none []]
    simp only [List.nil_append]
    refine List.map_congr_left ?_
    intro a _
    rw [getBackoffDelay]
    push_cast
    ring

/-- C5 witness: at attempt 2 with header `"7"` the delay is 7000 ms; with no
header at attempt 3 it is 2000 ms; an all-429 run with 2 retries sleeps
250, 500 and 1000 ms. -/
theorem backoff_delay_spec_witness :
    getBackoffDelay 2 (some "7") = 7000 ∧ getBackoffDelay 3 none = 2000
      ∧ (requestModel (some "tok") none 2 5000 all429Script).delays = [250, 500, 1000] := by
  refine ⟨?_, ?_, ?_⟩
  · have h := (backoff_delay_spec 2 (some "7")).1 "7" 7 rfl (by decide) (by decide)
    rw [h]
    norm_num
  · have h := (backoff_delay_spec 3 none).2.1 (Or.inl rfl)
    rw [h]
    norm_num
  · have h := (backoff_delay_spec 0 none).2.2 2 5000
    rw [h]
    norm_num [List.range']

/-- C2 (code bug): a 400 response is *not* raised immediately — the `throw`
for the "non-retriable error" sits inside the `try`, so the `catch` retries
it: with the default 3 retries the transport makes 4 fetch calls with backoff
sleeps 250, 500, 1000 ms in between, and only then surfaces the error (which
does contain status, status text and body). -/
theorem http400_retried_not_immediate :
    requestModel (some "tok") none 3 5000 all400Script
      = { result := .error "HTTP 400 Bad Request: nope", attempts := 4,
          delays := [250, 500, 1000] } := by
  decide

/-- C1 (code bug): with no token set and no token provider, `ensureToken`
returns silently and `Http.request` proceeds: it performs the fetch (one
attempt), sends no `Authorization` header, and returns the parsed body — no
"authentication required" error is ever thrown by the transport. -/
theorem no_token_proceeds_unauthenticated :
    requestModel none none 3 5000 okJsonScript
        = { result := .ok (some "{}"), attempts := 1, delays := [] }
      ∧ recordGet (requestHeaders none {}) "Authorization" = none
      ∧ ensureToken none none = .ok none := by
  exact ⟨by decide, by decide, by decide⟩

/-- C9: the caller-supplied `clientHeaders` map is merged last
(`Object.assign`), so any entry whose key collides with a computed header —
`Authorization`, `User-Agent`, `Content-Type`, the `X-Client-*` identity
headers — silently replaces the computed value, in both `Http.request`
(used by `get`/`post`) and `Http.getText`. -/
theorem clientHeaders_override (token : Option String) (cfg : HttpConfig) (k v : String)
    (hnodup : (cfg.clientHeaders.map Prod.fst).Nodup)
    (hmem : (k, v) ∈ cfg.clientHeaders) :
    recordGet (requestHeaders token cfg) k = some v
      ∧ recordGet (getTextHeaders token cfg) k = some v :=
  ⟨recordGet_assign_mem k v cfg.clientHeaders _ hnodup hmem,
   recordGet_assign_mem k v cfg.clientHeaders _ hnodup hmem⟩

/-- The configuration used by the C9 witness. -/
def overrideCfg : HttpConfig :=
  { clientHeaders := [("Authorization", "Bearer custom"), ("User-Agent", "my-agent")] }

/-- C9 witness: a `clientHeaders` entry keyed `Authorization` (resp.
`User-Agent`) wins over the computed bearer token (resp. synthesized UA). -/
theorem clientHeaders_override_witness :
    recordGet (requestHeaders (some "tok") overrideCfg) "Authorization" = some "Bearer custom"
      ∧ recordGet (getTextHeaders (some "tok") overrideCfg) "User-Agent" = some "my-agent" :=
  ⟨(clientHeaders_override (some "tok") overrideCfg "Authorization" "Bearer custom"
      (by decide) (by decide)).1,
   (clientHeaders_override (some "tok") overrideCfg "User-Agent" "my-agent"
      (by decide) (by decide)).2⟩

/-!
## `paginate` (src/pagination.ts)

`async function* paginate(fetchPage)`: a do/while loop that fetches a page,
yields its items in order, and continues with the returned `next` cursor
while that cursor is truthy (so `undefined` and `""` both stop iteration).
The page-fetch function is modelled as a pure map from cursors to pages and
the generator's total yield as a list; `fuel` bounds the number of loop
iterations (the generator itself may run forever on a script whose cursors
never go falsy).
-/

/-- One fetched page. -/
structure Page (T : Type) where
  items : List T
  next : Option String

/-- The loop of `paginate` starting from a given cursor. -/
def paginateGo {T : Type} (fetchPage : Option String → Page T) :
    ℕ → Option String → List T
  | 0, _ => []
  | fuel + 1, cursor =>
    (fetchPage cursor).items
      ++ (if jsTruthyStr (fetchPage cursor).next then
            paginateGo fetchPage fuel (fetchPage cursor).next
          else [])

/-- `paginate(fetchPage)`: the loop starts with an undefined cursor. -/
def paginate {T : Type} (fetchPage : Option String → Page T) (fuel : ℕ) : List T :=
  paginateGo fetchPage fuel none

/-- The cursors actually passed to `fetchPage`, in call order. -/
def cursorChain {T : Type} (fetchPage : Option String → Page T) :
    ℕ → Option String → List (Option String)
  | 0, _ => []
  | fuel + 1, cursor =>
    cursor
      :: (if jsTruthyStr (fetchPage cursor).next then
            cursorChain fetchPage fuel (fetchPage cursor).next
          else [])

theorem paginateGo_eq_join {T : Type} (fetchPage : Option String → Page T) :
    ∀ (fuel : ℕ) (cursor : Option String),
      paginateGo fetchPage fuel cursor
        = ((cursorChain fetchPage fuel cursor).map (fun c => (fetchPage c).items)).flatten := by
  intro fuel
  induction fuel with
  | zero => intro cursor; rfl
  | succ fuel ih =>
    intro cursor
    rw [paginateGo, cursorChain, List.map_cons, List.flatten]
    by_cases h : jsTruthyStr (fetchPage cursor).next
    · rw [if_pos h, if_pos h, ih]
    · rw [if_neg h, if_neg h]
      simp

/-- C10: `paginate` yields all items of each fetched page in order (its
output is the concatenation of the items of the pages along the cursor
chain), and it calls `fetchPage` again exactly when the returned `next`
cursor is truthy: a falsy `next` (absent or `""`) stops after the current
page's items, a truthy `next` continues from that cursor — so a page with an
empty `items` array but a truthy `next` yields nothing yet iteration
continues. -/
theorem paginate_spec {T : Type} (fetchPage : Option String → Page T) :
    (∀ fuel : ℕ, paginate fetchPage fuel
        = ((cursorChain fetchPage fuel none).map (fun c => (fetchPage c).items)).flatten)
    ∧ (∀ (cursor : Option String) (fuel : ℕ), ¬ jsTruthyStr (fetchPage cursor).next = true →
        paginateGo fetchPage (fuel + 1) cursor = (fetchPage cursor).items)
    ∧ (∀ (cursor : Option String) (fuel : ℕ), jsTruthyStr (fetchPage cursor).next = true →
        paginateGo fetchPage (fuel + 1) cursor
          = (fetchPage cursor).items ++ paginateGo fetchPage fuel (fetchPage cursor).next) := by
  refine ⟨fun fuel => paginateGo_eq_join fetchPage fuel none, ?_, ?_⟩
  · intro cursor fuel h
    rw [paginateGo, if_neg h, List.append_nil]
  · intro cursor fuel h
    rw [paginateGo, if_pos h]

/-- The C10 witness's page script: page 1 has two items and cursor `"a"`;
page `"a"` is *empty* with cursor `"b"`; page `"b"` has one item and the
falsy cursor `""`. -/
def fetchEx : Option String → Page ℕ
  | none => ⟨[1, 2], some "a"⟩
  | some "a" => ⟨[], some "b"⟩
  | some "b" => ⟨[3], some ""⟩
  | some _ => ⟨[], none⟩

/-- C10 witness: on `fetchEx` the iterator yields `[1, 2, 3]`; the empty
page `"a"` with truthy `next` continues, and the falsy `""` cursor returned
by page `"b"` stops. -/
theorem paginate_spec_witness :
    paginate fetchEx 10 = [1, 2, 3]
      ∧ jsTruthyStr (fetchEx (some "a")).next = true
      ∧ paginateGo fetchEx 10 (some "a")
          = (fetchEx (some "a")).items ++ paginateGo fetchEx 9 (fetchEx (some "a")).next
      ∧ ¬ jsTruthyStr (fetchEx (some "b")).next = true
      ∧ paginateGo fetchEx 10 (some "b") = (fetchEx (some "b")).items := by
  refine ⟨by decide, by decide, ?_, by decide, ?_⟩
  · exact (paginate_spec fetchEx).2.2 (some "a") 9 (by decide)
  · exact (paginate_spec fetchEx).2.1 (some "b") 9 (by decide)

/-!
## `OrganizationDetector` (src/organization-detector.ts)

Meeting records are `any` in TS; we model exactly the fields the detector
reads.  `email.split('@')[1]` can be `undefined` (no `'@'`), and
`undefined.includes(...)` throws a `TypeError`; code that can throw this way
lives in `Except Unit`.
-/

/-- One configured organization. -/
structure OrgConfig where
  name : String
  titleKeywords : List String
  emailDomains : List String
  emailAddresses : Option (List String)
  companyNames : Option (List String)

/-- The detector's configuration; the three toggles are optional booleans
(enabled unless explicitly `false`). -/
structure DetectorConfig where
  organizations : List OrgConfig
  defaultOrganization : Option String
  useCalendarData : Option Bool
  usePeopleData : Option Bool
  useTitleKeywords : Option Bool

/-- A calendar participant. -/
structure CalendarPerson where
  email : Option String

/-- `meeting.google_calendar_event`. -/
structure CalendarEvent where
  creator : Option CalendarPerson
  attendees : Option (List CalendarPerson)

/-- `people.creator.details.company`. -/
structure Company where
  name : Option String

/-- `people.creator.details`. -/
structure PersonDetails where
  company : Option Company

/-- A person in `meeting.people`. -/
structure Person where
  email : Option String
  details : Option PersonDetails

/-- `meeting.people`. -/
structure People where
  creator : Option Person
  attendees : Option (List Person)

/-- A meeting record, restricted to the fields the detector reads. -/
structure Meeting where
  title : Option String
  google_calendar_event : Option CalendarEvent
  people : Option People

/-- Split a character list on a separator character (the pieces of
`s.split('@')`, in order; an empty string yields one empty piece). -/
def splitOnChar (sep : Char) : List Char → List (List Char)
  | [] => [[]]
  | c :: rest =>
    if c = sep then [] :: splitOnChar sep rest
    else
      match splitOnChar sep rest with
      | piece :: more => (c :: piece) :: more
      | [] => [[c]]

/-- `email.split('@')[1]` — `none` when the string has no `'@'`. -/
def jsSplitAt1 (s : String) : Option String :=
  ((splitOnChar '@' s.data).get? 1).map List.asString

/-- `org.emailDomains.some(d => domain.includes(d.toLowerCase()))`:
the callback dereferences `domain`, so a missing domain throws on the first
callback invocation (i.e. whenever the list is non-empty). -/
def domainIncludesE (domain : Option String) : List String → Except Unit Bool
  | [] => .ok false
  | d :: rest =>
    match domain with
    | none => .error ()
    | some dom =>
      if strIncludes dom (jsLower d) then .ok true else domainIncludesE domain rest

/-- `org.emailAddresses?.some(email => email.toLowerCase() === creatorEmail)`
(an absent list is falsy, never throws). -/
def emailAddrMatch (addrs : Option (List String)) (creatorEmail : String) : Bool :=
  (addrs.getD []).any (fun e => jsLower e = creatorEmail)

/-- `for (org of orgs) if (pred org) return org.name` for a pure predicate. -/
def findFirstOrgP (f : OrgConfig → Bool) : List OrgConfig → Option String
  | [] => none
  | org :: rest => if f org then some org.name else findFirstOrgP f rest

/-- The same loop for a predicate that can throw. -/
def findFirstOrgE (f : OrgConfig → Except Unit Bool) :
    List OrgConfig → Except Unit (Option String)
  | [] => .ok none
  | org :: rest => do
    let b ← f org
    if b then .ok (some org.name) else findFirstOrgE f rest

/-- `domainCounts[name] = (domainCounts[name] || 0) + 1` on an
insertion-ordered record of counts. -/
def bumpCount (counts : List (String × ℕ)) (name : String) : List (String × ℕ) :=
  if counts.any (fun p => p.1 = name) then
    counts.map (fun p => if p.1 = name then (p.1, p.2 + 1) else p)
  else counts ++ [(name, 1)]

/-- The inner per-attendee loop over organizations: bump each organization
whose domains match the attendee's email domain. -/
def countOneAttendee (orgs : List OrgConfig) (domain : Option String)
    (counts : List (String × ℕ)) : Except Unit (List (String × ℕ)) :=
  orgs.foldlM (fun cs org => do
    let b ← domainIncludesE domain org.emailDomains
    pure (if b then bumpCount cs org.name else cs)) counts

/-- The attendee-domain counting loop (used by both the calendar and the
people strategies) over attendee emails. -/
def countAttendees (orgs : List OrgConfig) (emails : List (Option String)) :
    Except Unit (List (String × ℕ)) :=
  emails.foldlM (fun cs em =>
    if jsTruthyStr em then
      countOneAttendee orgs (jsSplitAt1 (jsLower (em.getD ""))) cs
    else pure cs) []

/-- `Object.entries` scan for the strictly-largest count, first-wins on
ties (`maxCount = 0`, `if (count > maxCount)`). -/
def pickMax (counts : List (String × ℕ)) : Option String :=
  (counts.foldl (fun acc p => if acc.1 < p.2 then (p.2, some p.1) else acc)
    ((0 : ℕ), (none : Option String))).2

/-- The shared creator-email check: exact address matches first, then domain
containment. -/
def creatorEmailCheck (cfg : DetectorConfig) (cEmail : Option String) :
    Except Unit (Option String) :=
  if jsTruthyStr cEmail then
    let creatorEmail := jsLower (cEmail.getD "")
    match findFirstOrgP (fun org => emailAddrMatch org.emailAddresses creatorEmail)
        cfg.organizations with
    | some name => .ok (some name)
    | none =>
      findFirstOrgE (fun org => domainIncludesE (jsSplitAt1 creatorEmail) org.emailDomains)
        cfg.organizations
  else .ok none

/-- The shared attendee-majority check (`if (primaryOrg) return primaryOrg`
is a truthiness test, so an empty-string organization name is not
returned). -/
def attendeeMajorityCheck (cfg : DetectorConfig) (emails : Option (List (Option String))) :
    Except Unit (Option String) :=
  match emails with
  | some es =>
    if es.length ≠ 0 then do
      let counts ← countAttendees cfg.organizations es
      match pickMax counts with
      | some name => if name ≠ "" then .ok (some name) else .ok none
      | none => .ok none
    else .ok none
  | none => .ok none

/-- `detectFromCalendarData(calendarEvent)`. -/
def detectFromCalendarData (cfg : DetectorConfig) (ev : Option CalendarEvent) :
    Except Unit (Option String) :=
  match ev with
  | none => .ok none
  | some ev => do
    let r ← creatorEmailCheck cfg (ev.creator.bind CalendarPerson.email)
    match r with
    | some name => .ok (some name)
    | none => attendeeMajorityCheck cfg (ev.attendees.map (fun l => l.map CalendarPerson.email))

/-- `detectFromTitle(title)`: case-insensitive substring search of each
organization's keywords against the title, first organization wins. -/
def detectFromTitle (cfg : DetectorConfig) (title : Option String) : Option String :=
  if jsTruthyStr title then
    let titleLower := jsLower (title.getD "")
    findFirstOrgP
      (fun org => org.titleKeywords.any (fun kw => strIncludes titleLower (jsLower kw)))
      cfg.organizations
  else none

/-- `detectFromPeopleData(people)`: creator company name, then creator
email, then attendee-domain majority. -/
def detectFromPeopleData (cfg : DetectorConfig) (people : Option People) :
    Except Unit (Option String) :=
  match people with
  | none => .ok none
  | some ppl =>
    let companyName :=
      ((ppl.creator.bind Person.details).bind PersonDetails.company).bind Company.name
    let step0 : Option String :=
      if jsTruthyStr companyName then
        let cn := jsLower (companyName.getD "")
        findFirstOrgP
          (fun org => (org.companyNames.getD []).any (fun nm => strIncludes cn (jsLower nm)))
          cfg.organizations
      else none
    match step0 with
    | some name => .ok (some name)
    | none => do
      let r ← creatorEmailCheck cfg (ppl.creator.bind Person.email)
      match r with
      | some name => .ok (some name)
      | none => attendeeMajorityCheck cfg (ppl.attendees.map (fun l => l.map Person.email))

/-- The detection-method loop: skip disabled methods entirely; return the
first truthy result. -/
def runMethods : List (Bool × (Unit → Except Unit (Option String))) →
    Except Unit (Option String)
  | [] => .ok none
  | (enabled, f) :: rest =>
    if enabled then do
      let org ← f ()
      if jsTruthyStr org then .ok org else runMethods rest
    else runMethods rest

/-- `detectOrganization(meeting)` (src/organization-detector.ts 94–126). -/
def detectOrganization (cfg : DetectorConfig) (meeting : Option Meeting) :
    Except Unit (Option String) :=
  match meeting with
  | none => .ok cfg.defaultOrganization
  | some m => do
    let r ← runMethods
      [(cfg.useCalendarData ≠ some false,
        fun _ => detectFromCalendarData cfg m.google_calendar_event),
       (cfg.useTitleKeywords ≠ some false,
        fun _ => .ok (detectFromTitle cfg m.title)),
       (cfg.usePeopleData ≠ some false,
        fun _ => detectFromPeopleData cfg m.people)]
    match r with
    | some name => .ok (some name)
    | none => .ok cfg.defaultOrganization

/-- A disabled entry is skipped outright. -/
theorem runMethods_cons_false (f : Unit → Except Unit (Option String))
    (rest : List (Bool × (Unit → Except Unit (Option String)))) :
    runMethods ((false, f) :: rest) = runMethods rest := rfl

/-- An enabled entry whose method returns a truthy name short-circuits. -/
theorem runMethods_cons_truthy (f : Unit → Except Unit (Option String))
    (rest : List (Bool × (Unit → Except Unit (Option String)))) (s : String)
    (hf : f () = .ok (some s)) (hs : s ≠ "") :
    runMethods ((true, f) :: rest) = .ok (some s) := by
  have h : runMethods ((true, f) :: rest)
      = (f () >>= fun org => if jsTruthyStr org then .ok org else runMethods rest) := rfl
  rw [h, hf]
  show (if jsTruthyStr (some s) then Except.ok (some s) else runMethods rest)
      = Except.ok (some s)
  rw [if_pos (by simp [jsTruthyStr, hs])]

/-- An enabled entry whose method returns no match falls through. -/
theorem runMethods_cons_none (f : Unit → Except Unit (Option String))
    (rest : List (Bool × (Unit → Except Unit (Option String)))) (hf : f () = .ok none) :
    runMethods ((true, f) :: rest) = runMethods rest := by
  have h : runMethods ((true, f) :: rest)
      = (f () >>= fun org => if jsTruthyStr org then .ok org else runMethods rest) := rfl
  rw [h, hf]
  show (if jsTruthyStr none then Except.ok none else runMethods rest) = runMethods rest
  rw [if_neg (by simp [jsTruthyStr])]

/-- The method loop only looks at an entry's method after its own guard:
equal tails give equal loops. -/
theorem runMethods_tail_congr (e : Bool × (Unit → Except Unit (Option String)))
    (rest rest' : List (Bool × (Unit → Except Unit (Option String))))
    (h : runMethods rest = runMethods rest') :
    runMethods (e :: rest) = runMethods (e :: rest') := by
  obtain ⟨b, g⟩ := e
  cases b
  · exact h
  · show (g () >>= fun org => if jsTruthyStr org then .ok org else runMethods rest)
        = (g () >>= fun org => if jsTruthyStr org then .ok org else runMethods rest')
    cases hg : g () with
    | error e => rfl
    | ok org =>
      show (if jsTruthyStr org then Except.ok org else runMethods rest)
          = (if jsTruthyStr org then Except.ok org else runMethods rest')
      by_cases hh : jsTruthyStr org = true
      · rw [if_pos hh, if_pos hh]
      · rw [if_neg hh, if_neg hh]
        exact h

/-- C6: `detectOrganization` evaluates the enabled strategies in the fixed
priority order calendar → title → people, short-circuiting at the first
enabled strategy with a (truthy) match; a disabled strategy is skipped
entirely and its meeting fields never influence the result; a null meeting
record, or no enabled strategy matching, yields the configured
`defaultOrganization`. -/
theorem detectOrganization_spec (cfg : DetectorConfig) :
    detectOrganization cfg none = .ok cfg.defaultOrganization
    ∧ (∀ (m : Meeting) (s : String), cfg.useCalendarData ≠ some false →
        detectFromCalendarData cfg m.google_calendar_event = .ok (some s) → s ≠ "" →
        detectOrganization cfg (some m) = .ok (some s))
    ∧ (∀ (m : Meeting) (s : String),
        (cfg.useCalendarData = some false
          ∨ detectFromCalendarData cfg m.google_calendar_event = .ok none) →
        cfg.useTitleKeywords ≠ some false →
        detectFromTitle cfg m.title = some s → s ≠ "" →
        detectOrganization cfg (some m) = .ok (some s))
    ∧ (∀ (m : Meeting) (s : String),
        (cfg.useCalendarData = some false
          ∨ detectFromCalendarData cfg m.google_calendar_event = .ok none) →
        (cfg.useTitleKeywords = some false ∨ detectFromTitle cfg m.title = none) →
        cfg.usePeopleData ≠ some false →
        detectFromPeopleData cfg m.people = .ok (some s) → s ≠ "" →
        detectOrganization cfg (some m) = .ok (some s))
    ∧ (∀ m : Meeting,
        (cfg.useCalendarData = some false
          ∨ detectFromCalendarData cfg m.google_calendar_event = .ok none) →
        (cfg.useTitleKeywords = some false ∨ detectFromTitle cfg m.title = none) →
        (cfg.usePeopleData = some false ∨ detectFromPeopleData cfg m.people = .ok none) →
        detectOrganization cfg (some m) = .ok cfg.defaultOrganization)
    ∧ (cfg.useCalendarData = some false → ∀ (m : Meeting) (ev ev' : Option CalendarEvent),
        detectOrganization cfg (some { m with google_calendar_event := ev })
          = detectOrganization cfg (some { m with google_calendar_event := ev' }))
    ∧ (cfg.useTitleKeywords = some false → ∀ (m : Meeting) (t t' : Option String),
        detectOrganization cfg (some { m with title := t })
          = detectOrganization cfg (some { m with title := t' }))
    ∧ (cfg.usePeopleData = some false → ∀ (m : Meeting) (p p' : Option People),
        detectOrganization cfg (some { m with people := p })
          = detectOrganization cfg (some { m with people := p' })) := by
  refine ⟨rfl, ?_, ?_, ?_, ?_, ?_, ?_, ?_⟩
  · intro m s h1 hd hs
    simp only [detectOrganization]
    rw [decide_eq_true h1, runMethods_cons_truthy _ _ s hd hs]
    rfl
  · intro m s hcal h2 ht hs
    simp only [detectOrganization]
    have hstep : ∀ rest, runMethods ((decide (cfg.useCalendarData ≠ some false),
        fun _ => detectFromCalendarData cfg m.google_calendar_event) :: rest)
        = runMethods rest := by
      intro rest
      rcases hcal with h | hD
      · rw [decide_eq_false (not_not_intro h), runMethods_cons_false]
      · by_cases hP : cfg.useCalendarData = some false
        · rw [decide_eq_false (not_not_intro hP), runMethods_cons_false]
        · rw [decide_eq_true hP, runMethods_cons_none _ _ hD]
    rw [hstep, decide_eq_true h2,
      runMethods_cons_truthy _ _ s (congrArg Except.ok ht) hs]
    rfl
  · intro m s hcal htitle h3 hp hs
    simp only [detectOrganization]
    have hstep : ∀ rest, runMethods ((decide (cfg.useCalendarData ≠ some false),
        fun _ => detectFromCalendarData cfg m.google_calendar_event) :: rest)
        = runMethods rest := by
      intro rest
      rcases hcal with h | hD
      · rw [decide_eq_false (not_not_intro h), runMethods_cons_false]
      · by_cases hP : cfg.useCalendarData = some false
        · rw [decide_eq_false (not_not_intro hP), runMethods_cons_false]
        · rw [decide_eq_true hP, runMethods_cons_none _ _ hD]
    have hstep2 : ∀ rest, runMethods ((decide (cfg.useTitleKeywords ≠ some false),
        fun _ => Except.ok (detectFromTitle cfg m.title)) :: rest)
        = runMethods rest := by
      intro rest
      rcases htitle with h | hT
      · rw [decide_eq_false (not_not_intro h), runMethods_cons_false]
      · by_cases hQ : cfg.useTitleKeywords = some false
        · rw [decide_eq_false (not_not_intro hQ), runMethods_cons_false]
        · rw [decide_eq_true hQ, runMethods_cons_none _ _ (congrArg Except.ok hT)]
    rw [hstep, hstep2, decide_eq_true h3, runMethods_cons_truthy _ _ s hp hs]
    rfl
  · intro m hcal htitle hpeople
    simp only [detectOrganization]
    have hstep : ∀ rest, runMethods ((decide (cfg.useCalendarData ≠ some false),
        fun _ => detectFromCalendarData cfg m.google_calendar_event) :: rest)
        = runMethods rest := by
      intro rest
      rcases hcal with h | hD
      · rw [decide_eq_false (not_not_intro h), runMethods_cons_false]
      · by_cases hP : cfg.useCalendarData = some false
        · rw [decide_eq_false (not_not_intro hP), runMethods_cons_false]
        · rw [decide_eq_true hP, runMethods_cons_none _ _ hD]
    have hstep2 : ∀ rest, runMethods ((decide (cfg.useTitleKeywords ≠ some false),
        fun _ => Except.ok (detectFromTitle cfg m.title)) :: rest)
        = runMethods rest := by
      intro rest
      rcases htitle with h | hT
      · rw [decide_eq_false (not_not_intro h), runMethods_cons_false]
      · by_cases hQ : cfg.useTitleKeywords = some false
        · rw [decide_eq_false (not_not_intro hQ), runMethods_cons_false]
        · rw [decide_eq_true hQ, runMethods_cons_none _ _ (congrArg Except.ok hT)]
    have hstep3 : runMethods [(decide (cfg.usePeopleData ≠ some false),
        fun _ => detectFromPeopleData cfg m.people)] = runMethods [] := by
      rcases hpeople with h | hE
      · rw [decide_eq_false (not_not_intro h), runMethods_cons_false]
      · by_cases hR : cfg.usePeopleData = some false
        · rw [decide_eq_false (not_not_intro hR), runMethods_cons_false]
        · rw [decide_eq_true hR, runMethods_cons_none _ _ hE]
    rw [hstep, hstep2, hstep3]
    rfl
  · intro h1 m ev ev'
    simp only [detectOrganization]
    rw [decide_eq_false (not_not_intro h1)]
    rfl
  · intro h2 m t t'
    simp only [detectOrganization]
    rw [decide_eq_false (not_not_intro h2)]
    exact congrArg (fun x => x >>= _) (runMethods_tail_congr _ _ _ rfl)
  · intro h3 m p p'
    simp only [detectOrganization]
    rw [decide_eq_false (not_not_intro h3)]
    exact congrArg (fun x => x >>= _)
      (runMethods_tail_congr _ _ _ (runMethods_tail_congr _ _ _ rfl))

/-- Organizations for the C6 witness: `OrgA` matches on a title keyword,
`OrgB` on a calendar email domain. -/
def orgA : OrgConfig :=
  { name := "OrgA", titleKeywords := ["weekly"], emailDomains := ["orga.com"],
    emailAddresses := none, companyNames := none }

def orgB : OrgConfig :=
  { name := "OrgB", titleKeywords := [], emailDomains := ["orgb.com"],
    emailAddresses := none, companyNames := none }

/-- The C6 witness config: both organizations, all strategies enabled. -/
def exCfg : DetectorConfig :=
  { organizations := [orgA, orgB], defaultOrganization := some "Unknown",
    useCalendarData := none, usePeopleData := none, useTitleKeywords := none }

/-- The C6 witness meeting: its title matches `OrgA`'s keyword while its
calendar creator email domain matches `OrgB`. -/
def exMeeting : Meeting :=
  { title := some "Weekly Meeting",
    google_calendar_event := some
      { creator := some { email := some "boss@orgb.com" }, attendees := none },
    people := none }

/-- C6 witness: with both strategies matching, the calendar strategy wins
(`OrgB`), even though the title strategy alone would have returned `OrgA`. -/
theorem detectOrganization_spec_witness :
    detectOrganization exCfg (some exMeeting) = .ok (some "OrgB")
      ∧ detectFromTitle exCfg exMeeting.title = some "OrgA" := by
  constructor
  · exact (detectOrganization_spec exCfg).2.1 exMeeting "OrgB" (by decide) (by decide) (by decide)
  · decide

end Granola